import Mathlib

/-!
Verification of the `imessage-gemini-chatbot` repository's natural-language
specification against a shallow embedding of its JavaScript source.

Strings are modelled as Lean `String`s; all character-level work happens on
`List Char` (`String.toList` / `String.mk`).  JavaScript string primitives
(`trim`, `toLowerCase`, `includes`, `slice`, anchored literal regexes) are
re-implemented on `List Char`; `trim`/`\s` whitespace is modelled by
`Char.isWhitespace` and `toLowerCase` by `Char.toLower` (ASCII case folding).
External effects (the Gemini HTTP calls, `JSON.parse`, the KV store, web-push)
are passed to the embedded handlers as explicit outcome parameters.
-/

/-- Model of JavaScript `String.prototype.trim` on a character list. -/
def trimChars (l : List Char) : List Char :=
  ((l.dropWhile Char.isWhitespace).reverse.dropWhile Char.isWhitespace).reverse

/-- Model of JavaScript `String.prototype.trim`. -/
def strTrim (s : String) : String :=
  String.mk (trimChars s.toList)

/-- Model of JavaScript `String.prototype.toLowerCase` (ASCII folding). -/
def strLower (s : String) : String :=
  String.mk (s.toList.map Char.toLower)

/-- Does `hay` start with `needle`?  (Model of an anchored literal match.) -/
def startsWithChars : List Char → List Char → Bool
  | _, [] => true
  | [], _ :: _ => false
  | h :: hs, n :: ns => h = n && startsWithChars hs ns

/-- Model of JavaScript `String.prototype.includes` on character lists:
does `needle` occur contiguously inside `hay`? -/
def containsSub (needle : List Char) : List Char → Bool
  | [] => needle.isEmpty
  | c :: rest => startsWithChars (c :: rest) needle || containsSub needle rest

/-- Model of JavaScript `hay.includes(needle)` on `String`s. -/
def strIncludes (hay needle : String) : Bool :=
  containsSub needle.toList hay.toList

/-- Removal of one maximal trailing run of `.`, `!`, `?`
(JS `replace(/[.!?]+$/g, '')`). -/
def stripTrailingPunct (l : List Char) : List Char :=
  (l.reverse.dropWhile (fun c => c = '.' || c = '!' || c = '?')).reverse

/-- Replacement of every whitespace run by a single space
(JS `replace(/\s+/g, ' ')`); the flag records whether the previous
character belonged to a whitespace run. -/
def collapseWsGo : List Char → Bool → List Char
  | [], _ => []
  | c :: rest, prevWs =>
    if c.isWhitespace then
      if prevWs then collapseWsGo rest true
      else ' ' :: collapseWsGo rest true
    else c :: collapseWsGo rest false

/-- `normalizeForComparison` from `api/_gemini_shared.js`:
trim, strip one trailing `[.!?]+` run, collapse whitespace, lowercase. -/
def normalizeForComparison (value : String) : String :=
  String.mk
    (((collapseWsGo (stripTrailingPunct (trimChars value.toList)) false).map
      Char.toLower))

/-- `isMinorSentenceDifference` from `api/_gemini_shared.js`. -/
def isMinorSentenceDifference (source target : String) : Bool :=
  normalizeForComparison source == normalizeForComparison target

/-- One `{wrong, right, reason}` grammar edit (fields are the strings the
grammar handler has already coerced). -/
structure GrammarEdit where
  wrong : String
  right : String
  reason : String
deriving DecidableEq, Repr

/-- One `{part, issue, fix}` feedback point. -/
structure FeedbackPoint where
  part : String
  issue : String
  fix : String
deriving DecidableEq, Repr

/-- `correctedTextCoversEdits` from `api/_gemini_shared.js` (lines 97-109):
the loop with early `return false` is the `List.all` of the per-edit check. -/
def correctedTextCoversEdits (sourceText correctedText : String)
    (edits : List GrammarEdit) : Bool :=
  let source := strLower sourceText
  let corrected := strLower correctedText
  if strTrim corrected = "" then false
  else
    edits.all fun edit =>
      let wrong := strLower (strTrim edit.wrong)
      let right := strLower (strTrim edit.right)
      if wrong = "" || right = "" then true
      else if !(strIncludes source wrong) then true
      else !(strIncludes corrected wrong) && strIncludes corrected right

/-- `correctedTextCoversFeedbackPoints` from `api/_gemini_shared.js`
(lines 111-126). -/
def correctedTextCoversFeedbackPoints (sourceText correctedText : String)
    (feedbackPoints : List FeedbackPoint) : Bool :=
  let source := strLower sourceText
  let corrected := strLower correctedText
  if strTrim corrected = "" then false
  else
    feedbackPoints.all fun point =>
      let part := strTrim point.part
      let fix := strTrim point.fix
      if part = "" || fix = "" then true
      else if isMinorSentenceDifference part fix then true
      else
        let p := strLower part
        let f := strLower fix
        if !(strIncludes source p) then true
        else !(strIncludes corrected p) && strIncludes corrected f

/-- The score `pickBestCorrectedText` computes for one candidate
(`api/_gemini_shared.js` lines 175-178). -/
def scoreCandidate (source : String) (edits : List GrammarEdit)
    (feedbackPoints : List FeedbackPoint) (candidate : String) : Nat :=
  (if !(correctedTextCoversEdits source candidate edits) then 10 else 0) +
  (if !(correctedTextCoversFeedbackPoints source candidate feedbackPoints)
    then 10 else 0) +
  (if isMinorSentenceDifference source candidate then 5 else 0)

/-- The candidate-dedup loop of `pickBestCorrectedText`
(`api/_gemini_shared.js` lines 160-169): trim, drop empties, dedupe by
`normalizeForComparison` key. -/
def dedupeCandidatesGo : List String → List String → List String
  | [], _ => []
  | candidate :: rest, seen =>
    let value := strTrim candidate
    if value = "" then dedupeCandidatesGo rest seen
    else
      let key := normalizeForComparison value
      if key ∈ seen then dedupeCandidatesGo rest seen
      else value :: dedupeCandidatesGo rest (key :: seen)

/-- The deduplicated candidate list `unique` of `pickBestCorrectedText`. -/
def dedupeCandidates (candidates : List String) : List String :=
  dedupeCandidatesGo candidates []

/-- The selection loop of `pickBestCorrectedText`
(`api/_gemini_shared.js` lines 172-183); `none` models the initial
`Number.POSITIVE_INFINITY` best score. -/
def pickBestGo (score : String → Nat) :
    List String → String → Option Nat → String
  | [], best, _ => best
  | candidate :: rest, best, bestScore =>
    let s := score candidate
    let improves := match bestScore with
      | none => true
      | some b => decide (s < b)
    if improves then pickBestGo score rest candidate (some s)
    else pickBestGo score rest best bestScore

/-- `pickBestCorrectedText` from `api/_gemini_shared.js` (lines 158-185). -/
def pickBestCorrectedText (sourceText : String) (candidates : List String)
    (edits : List GrammarEdit) (feedbackPoints : List FeedbackPoint) : String :=
  let source := sourceText
  let unique := dedupeCandidates candidates
  match unique with
  | [] => source
  | u0 :: _ => pickBestGo (scoreCandidate source edits feedbackPoints) unique u0 none

example : pickBestCorrectedText " hi " [" hi "] [] [] = "hi" := by decide
example : pickBestCorrectedText "hi" ["hi"] [] [] = "hi" := by decide
example : pickBestCorrectedText "x" [] [] [] = "x" := by decide

/-- The one-step minimum update used by the candidate-selection loop. -/
def minStep (score : String → Nat) (acc c : String) : String :=
  if score c < score acc then c else acc

lemma pickBestGo_eq_foldl (score : String → Nat) :
    ∀ (l : List String) (best : String),
      pickBestGo score l best (some (score best)) = l.foldl (minStep score) best := by
  intro l
  induction l with
  | nil => intro best; rfl
  | cons c rest ih =>
    intro best
    by_cases hc : score c < score best
    · simp [pickBestGo, hc, List.foldl_cons, minStep, ih]
    · simp [pickBestGo, hc, List.foldl_cons, minStep, ih]

lemma foldl_min_spec (score : String → Nat) :
    ∀ (l : List String) (b r : String),
      l.foldl (minStep score) b = r →
      (r = b ∧ ∀ c ∈ l, score b ≤ score c) ∨
      (∃ l1 l2, l = l1 ++ r :: l2 ∧ score r < score b ∧
        (∀ c ∈ l1, score r < score c) ∧ (∀ c ∈ l2, score r ≤ score c)) := by
  intro l
  induction l with
  | nil =>
    intro b r h
    exact Or.inl ⟨h.symm, by simp⟩
  | cons c rest ih =>
    intro b r h
    simp only [List.foldl_cons] at h
    by_cases hc : score c < score b
    · rw [minStep, if_pos hc] at h
      rcases ih c r h with ⟨hr, hall⟩ | ⟨l1, l2, heq, hlt, h1, h2⟩
      · subst hr
        exact Or.inr ⟨[], rest, by simp, hc, by simp, hall⟩
      · refine Or.inr ⟨c :: l1, l2, by simp [heq], hlt.trans hc, ?_, h2⟩
        intro d hd
        rcases List.mem_cons.mp hd with rfl | hd'
        · exact hlt
        · exact h1 d hd'
    · rw [minStep, if_neg hc] at h
      rcases ih b r h with ⟨hr, hall⟩ | ⟨l1, l2, heq, hlt, h1, h2⟩
      · refine Or.inl ⟨hr, ?_⟩
        intro d hd
        rcases List.mem_cons.mp hd with rfl | hd'
        · exact Nat.le_of_not_lt hc
        · exact hall d hd'
      · refine Or.inr ⟨c :: l1, l2, by simp [heq], hlt, ?_, h2⟩
        intro d hd
        rcases List.mem_cons.mp hd with rfl | hd'
        · exact hlt.trans_le (Nat.le_of_not_lt hc)
        · exact h1 d hd'

lemma pickBest_eq_foldl (source : String) (candidates : List String)
    (edits : List GrammarEdit) (feedbackPoints : List FeedbackPoint)
    (u0 : String) (rest : List String)
    (h : dedupeCandidates candidates = u0 :: rest) :
    pickBestCorrectedText source candidates edits feedbackPoints =
      rest.foldl (minStep (scoreCandidate source edits feedbackPoints)) u0 := by
  unfold pickBestCorrectedText
  rw [h]
  simp only [pickBestGo, if_true]
  exact pickBestGo_eq_foldl _ rest u0

/-- C1 (amended): `pickBestCorrectedText` dedupes the candidates by normalized
form (keeping the trimmed candidate string, discarding empty ones), scores each
surviving candidate with `scoreCandidate`, and returns the earliest candidate
with the strictly lowest score; it returns the source text itself when the
deduped candidate list is empty.  In particular
`pickBestCorrectedText(source, [source], [], [])` returns the trimmed source
when that is non-empty (hence `source` itself whenever `source` carries no
surrounding whitespace), and `source` unchanged when `source` is
whitespace-only. -/
theorem C1_pickBestCorrectedText_characterization (source : String)
    (candidates : List String) (edits : List GrammarEdit)
    (feedbackPoints : List FeedbackPoint) :
    (dedupeCandidates candidates = [] →
      pickBestCorrectedText source candidates edits feedbackPoints = source) ∧
    (∀ u0 rest, dedupeCandidates candidates = u0 :: rest →
      ∃ l1 l2,
        dedupeCandidates candidates =
          l1 ++ pickBestCorrectedText source candidates edits feedbackPoints :: l2 ∧
        (∀ c ∈ l1,
          scoreCandidate source edits feedbackPoints
              (pickBestCorrectedText source candidates edits feedbackPoints) <
            scoreCandidate source edits feedbackPoints c) ∧
        (∀ c ∈ l2,
          scoreCandidate source edits feedbackPoints
              (pickBestCorrectedText source candidates edits feedbackPoints) ≤
            scoreCandidate source edits feedbackPoints c)) ∧
    (pickBestCorrectedText source [source] [] [] =
      if strTrim source = "" then source else strTrim source) := by
  refine ⟨?_, ?_, ?_⟩
  · intro h
    unfold pickBestCorrectedText
    rw [h]
  · intro u0 rest h
    have hfold := pickBest_eq_foldl source candidates edits feedbackPoints u0 rest h
    set score := scoreCandidate source edits feedbackPoints with hscore
    set r := pickBestCorrectedText source candidates edits feedbackPoints with hr
    rcases foldl_min_spec score rest u0 r hfold.symm with ⟨hru, hall⟩ | ⟨l1, l2, heq, hlt, h1, h2⟩
    · refine ⟨[], rest, ?_, by simp, ?_⟩
      · simpa [hru] using h
      · intro c hc
        exact hru ▸ hall c hc
    · refine ⟨u0 :: l1, l2, by simp [h, heq], ?_, h2⟩
      intro c hc
      rcases List.mem_cons.mp hc with rfl | hc'
      · exact hlt
      · exact h1 c hc'
  · by_cases h : strTrim source = ""
    · simp [pickBestCorrectedText, dedupeCandidates, dedupeCandidatesGo, h]
    · simp [pickBestCorrectedText, dedupeCandidates, dedupeCandidatesGo, h, pickBestGo]

/-- Witness for C1: at `source = "a"` with no candidates, the deduped list is
empty and the source is returned. -/
theorem C1_witness : pickBestCorrectedText "a" [] [] [] = "a" :=
  (C1_pickBestCorrectedText_characterization "a" [] [] []).1 rfl

/-- Counterexample to C1 as frozen: with a source carrying surrounding
whitespace, `pickBestCorrectedText(source, [source], [], [])` returns the
trimmed candidate, not `source`. -/
theorem C1_counterexample :
    pickBestCorrectedText " hi " [" hi "] [] [] = "hi" ∧ (" hi " : String) ≠ "hi" :=
  ⟨by decide, by decide⟩

lemma startsWithChars_iff : ∀ (hay needle : List Char),
    startsWithChars hay needle = true ↔ needle <+: hay := by
  intro hay
  induction hay with
  | nil =>
    intro needle
    cases needle with
    | nil => simp [startsWithChars]
    | cons n ns => simp [startsWithChars]
  | cons h hs ih =>
    intro needle
    cases needle with
    | nil => simp [startsWithChars]
    | cons n ns =>
      rw [List.cons_prefix_cons]
      simp only [startsWithChars, Bool.and_eq_true, decide_eq_true_eq, ih]
      exact ⟨fun h2 => ⟨h2.1.symm, h2.2⟩, fun h2 => ⟨h2.1.symm, h2.2⟩⟩

lemma containsSub_iff : ∀ (hay needle : List Char),
    containsSub needle hay = true ↔ needle <:+: hay := by
  intro hay
  induction hay with
  | nil =>
    intro needle
    simp [containsSub, List.isEmpty_iff]
  | cons c rest ih =>
    intro needle
    simp [containsSub, List.infix_cons_iff, startsWithChars_iff, ih]

lemma containsSub_map (f : Char → Char) {needle hay : List Char}
    (h : containsSub needle hay = true) :
    containsSub (needle.map f) (hay.map f) = true := by
  rw [containsSub_iff] at h ⊢
  rcases h with ⟨s, t, hst⟩
  exact ⟨s.map f, t.map f, by rw [← hst]; simp⟩

lemma strIncludes_lower {hay needle : String}
    (h : strIncludes hay needle = true) :
    strIncludes (strLower hay) (strLower needle) = true := by
  unfold strIncludes strLower at *
  exact containsSub_map Char.toLower h

lemma mem_of_containsSub {needle hay : List Char} {c : Char}
    (h : containsSub needle hay = true) (hc : c ∈ needle) : c ∈ hay := by
  rw [containsSub_iff] at h
  rcases h with ⟨s, t, hst⟩
  rw [← hst]
  simp [hc]

lemma mem_dropWhile_of_not {p : Char → Bool} {c : Char} :
    ∀ {l : List Char}, c ∈ l → p c = false → c ∈ l.dropWhile p := by
  intro l
  induction l with
  | nil => intro h; exact absurd h (List.not_mem_nil c)
  | cons a rest ih =>
    intro hmem hpc
    by_cases ha : p a = true
    · rw [List.dropWhile_cons_of_pos ha]
      rcases List.mem_cons.mp hmem with rfl | hr
      · exact absurd ha (by simp [hpc])
      · exact ih hr hpc
    · rw [List.dropWhile_cons_of_neg ha]
      exact hmem

lemma mem_trimChars {l : List Char} {c : Char}
    (hmem : c ∈ l) (hws : c.isWhitespace = false) : c ∈ trimChars l := by
  unfold trimChars
  have h1 : c ∈ l.dropWhile Char.isWhitespace := mem_dropWhile_of_not hmem hws
  have h2 : c ∈ (l.dropWhile Char.isWhitespace).reverse := List.mem_reverse.mpr h1
  have h3 := mem_dropWhile_of_not h2 hws
  exact List.mem_reverse.mpr h3

lemma mk_ne_empty {l : List Char} (h : l ≠ []) : String.mk l ≠ "" := by
  intro hcontra
  exact h (congrArg String.toList hcontra)

lemma strTrim_ne_empty_of_mem {s : String} {c : Char}
    (hmem : c ∈ s.toList) (hws : c.isWhitespace = false) : strTrim s ≠ "" := by
  unfold strTrim
  apply mk_ne_empty
  intro hnil
  have := mem_trimChars hmem hws
  rw [hnil] at this
  exact List.not_mem_nil c this

/-- C2: with the edit list `[{wrong: "leven", right: "level"}]` and no feedback
points, over any source containing "leven", a candidate still containing
"leven" scores strictly worse than a candidate that contains "level" and no
longer contains "leven" (containment in the code is checked on the lowercased
candidate). -/
theorem C2_leven_scores_strictly_worse (source c1 c2 : String)
    (hsrc : strIncludes source "leven" = true)
    (hc1 : strIncludes c1 "leven" = true)
    (hc2r : strIncludes c2 "level" = true)
    (hc2w : strIncludes (strLower c2) "leven" = false) :
    scoreCandidate source [⟨"leven", "level", ""⟩] [] c2 <
      scoreCandidate source [⟨"leven", "level", ""⟩] [] c1 := by
  have e1 : strLower (strTrim "leven") = "leven" := by decide
  have e2 : strLower (strTrim "level") = "level" := by decide
  have hlow_src : strIncludes (strLower source) "leven" = true := by
    have h := strIncludes_lower hsrc
    rwa [show strLower "leven" = "leven" from by decide] at h
  have hlow_c1 : strIncludes (strLower c1) "leven" = true := by
    have h := strIncludes_lower hc1
    rwa [show strLower "leven" = "leven" from by decide] at h
  have hlow_c2r : strIncludes (strLower c2) "level" = true := by
    have h := strIncludes_lower hc2r
    rwa [show strLower "level" = "level" from by decide] at h
  have hmeml : 'l' ∈ c2.toList :=
    mem_of_containsSub hc2r (by decide)
  have hmemlow : 'l' ∈ (strLower c2).toList := by
    have : Char.toLower 'l' ∈ c2.toList.map Char.toLower :=
      List.mem_map_of_mem Char.toLower hmeml
    simpa [strLower, show Char.toLower 'l' = 'l' from by decide] using this
  have htrim : strTrim (strLower c2) ≠ "" :=
    strTrim_ne_empty_of_mem hmemlow (by decide)
  have hcovE_c2 :
      correctedTextCoversEdits source c2 [⟨"leven", "level", ""⟩] = true := by
    simp [correctedTextCoversEdits, e1, e2, hlow_src, hlow_c2r, hc2w, htrim]
  have hcovF_c2 : correctedTextCoversFeedbackPoints source c2 [] = true := by
    simp [correctedTextCoversFeedbackPoints, htrim]
  have hcovE_c1 :
      correctedTextCoversEdits source c1 [⟨"leven", "level", ""⟩] = false := by
    by_cases ht1 : strTrim (strLower c1) = ""
    · simp [correctedTextCoversEdits, ht1]
    · simp [correctedTextCoversEdits, ht1, e1, e2, hlow_src, hlow_c1]
  unfold scoreCandidate
  rw [hcovE_c2, hcovE_c1, hcovF_c2]
  have h5 : ∀ b : Bool, (if b = true then 5 else 0) ≤ 5 := by
    intro b; cases b <;> simp
  have h10 : ∀ b : Bool, (if b = true then 10 else 0) ≤ 10 := by
    intro b; cases b <;> simp
  simp only [Bool.not_true, Bool.not_false, Bool.false_eq_true, if_false, if_true]
  have hle := h5 (isMinorSentenceDifference source c2)
  omega

/-- Witness for C2: `source = "my leven is low"`, a candidate keeping the typo
scores worse than the candidate `"my level is low"`. -/
theorem C2_witness :
    scoreCandidate "my leven is low" [⟨"leven", "level", ""⟩] []
        "my level is low" <
      scoreCandidate "my leven is low" [⟨"leven", "level", ""⟩] []
        "my leven is low!" :=
  C2_leven_scores_strictly_worse "my leven is low" "my leven is low!"
    "my level is low" (by decide) (by decide) (by decide) (by decide)

/-- The backtick character (written via its code point to keep it out of the
source text). -/
def backtickChar : Char := Char.ofNat 96

/-- The three-backtick code-fence marker. -/
def fenceTag : List Char := [backtickChar, backtickChar, backtickChar]

/-- The marker of a JSON-tagged code fence opener. -/
def fenceJsonTag : List Char := fenceTag ++ ['j', 's', 'o', 'n']

/-- Removal of a leading case-insensitive fence tag followed by whitespace
(JS anchored `replace(/^<tag>\s*`/i, '')`); `tag` is given lowercased. -/
def dropFenceHeader (tag : List Char) (l : List Char) : List Char :=
  if (l.take tag.length).map Char.toLower = tag then
    (l.drop tag.length).dropWhile Char.isWhitespace
  else l

/-- Removal of a trailing fence preceded by whitespace
(JS `replace(/\s*<tag>$/, '')`). -/
def dropFenceFooter (l : List Char) : List Char :=
  let r := l.reverse
  if r.take 3 = fenceTag.reverse then
    ((r.drop 3).dropWhile Char.isWhitespace).reverse
  else l

/-- The fence-stripping performed by `parseJsonSafely`
(`api/_gemini_shared.js` lines 45-49). -/
def stripCodeFence (l : List Char) : List Char :=
  trimChars (dropFenceFooter (dropFenceHeader fenceTag (dropFenceHeader fenceJsonTag l)))

/-- `stripCodeFence` lifted to `String`s. -/
def stripFenceStr (s : String) : String :=
  String.mk (stripCodeFence s.toList)

/-- The opening curly brace (via its code point). -/
def openBraceChar : Char := Char.ofNat 123

/-- The closing curly brace (via its code point). -/
def closeBraceChar : Char := Char.ofNat 125

/-- Model of JavaScript `String.prototype.indexOf` for a single character. -/
def idxOfChar (c : Char) : List Char → Option Nat
  | [] => none
  | a :: rest => if a = c then some 0 else (idxOfChar c rest).map (· + 1)

/-- Model of JavaScript `String.prototype.lastIndexOf` for a single character. -/
def lastIdxOfChar (c : Char) (l : List Char) : Option Nat :=
  (idxOfChar c l.reverse).map (fun i => l.length - 1 - i)

/-- The guarded brace slice of `parseJsonSafely`
(`api/_gemini_shared.js` lines 53-56): the substring from the first opening
brace to the last closing brace, provided both exist in that order. -/
def braceSlice (withoutFence : String) : Option String :=
  match idxOfChar openBraceChar withoutFence.toList,
      lastIdxOfChar closeBraceChar withoutFence.toList with
  | some s, some e =>
    if s < e then some (String.mk ((withoutFence.toList.drop s).take (e + 1 - s)))
    else none
  | _, _ => none

/-- `parseJsonSafely` from `api/_gemini_shared.js` (lines 40-61).
`JSON.parse` is an external built-in and is passed in as `jsonParse`
(`none` models a parse exception); the function's own throw on total failure
is modelled by the `none` result. -/
def parseJsonSafely {α : Type} (jsonParse : String → Option α) (text : String) :
    Option α :=
  let direct := strTrim text
  match jsonParse direct with
  | some v => some v
  | none =>
    let withoutFence := stripFenceStr direct
    match jsonParse withoutFence with
    | some v => some v
    | none =>
      match braceSlice withoutFence with
      | some u => jsonParse u
      | none => none

/-- C3: `parseJsonSafely` tries, in order, the trimmed input, the
fence-stripped input, and the first-to-last-brace slice (when both braces
exist in order), returns the first success, and fails exactly when all
applicable attempts fail.  `jsonParse` ranges over models of `JSON.parse`;
the round-trip conjunct assumes only that `JSON.parse` is invariant under
trimming outer whitespace of a successfully parsed string. -/
theorem C3_parseJsonSafely_attempts {α : Type} (jsonParse : String → Option α)
    (hTrim : ∀ s v, jsonParse s = some v → jsonParse (strTrim s) = some v)
    (t : String) :
    (∀ v, jsonParse (strTrim t) = some v →
      parseJsonSafely jsonParse t = some v) ∧
    (∀ v, jsonParse (strTrim t) = none →
      jsonParse (stripFenceStr (strTrim t)) = some v →
      parseJsonSafely jsonParse t = some v) ∧
    (∀ u v, jsonParse (strTrim t) = none →
      jsonParse (stripFenceStr (strTrim t)) = none →
      braceSlice (stripFenceStr (strTrim t)) = some u →
      jsonParse u = some v →
      parseJsonSafely jsonParse t = some v) ∧
    (parseJsonSafely jsonParse t = none ↔
      jsonParse (strTrim t) = none ∧
      jsonParse (stripFenceStr (strTrim t)) = none ∧
      ∀ u, braceSlice (stripFenceStr (strTrim t)) = some u →
        jsonParse u = none) ∧
    (∀ v, jsonParse t = some v → parseJsonSafely jsonParse t = some v) := by
  refine ⟨?_, ?_, ?_, ?_, ?_⟩
  · intro v h
    simp [parseJsonSafely, h]
  · intro v h1 h2
    simp [parseJsonSafely, h1, h2]
  · intro u v h1 h2 h3 h4
    simp [parseJsonSafely, h1, h2, h3, h4]
  · rcases hd : jsonParse (strTrim t) with _ | v
    · rcases hf : jsonParse (stripFenceStr (strTrim t)) with _ | v
      · rcases hb : braceSlice (stripFenceStr (strTrim t)) with _ | u
        · simp [parseJsonSafely, hd, hf, hb]
        · have hrun : parseJsonSafely jsonParse t = jsonParse u := by
            simp [parseJsonSafely, hd, hf, hb]
          rw [hrun]
          constructor
          · intro hu
            refine ⟨rfl, rfl, fun u' hu' => ?_⟩
            have he : u = u' := Option.some_inj.mp hu'
            rw [← he]
            exact hu
          · intro h
            exact h.2.2 u rfl
      · simp [parseJsonSafely, hd, hf]
    · simp [parseJsonSafely, hd]
  · intro v h
    simp [parseJsonSafely, hTrim t v h]

/-- Witness for C3: a concrete parse function accepting exactly `"7"`,
applied to an input with surrounding whitespace. -/
theorem C3_witness :
    parseJsonSafely (fun s => if s = "7" then some (7 : Nat) else none) " 7 " =
      some 7 := by
  have hTrim : ∀ s v,
      (fun s => if s = "7" then some (7 : Nat) else none) s = some v →
      (fun s => if s = "7" then some (7 : Nat) else none) (strTrim s) = some v := by
    intro s v h
    by_cases hs : s = "7"
    · subst hs
      simpa [show strTrim "7" = "7" from by decide] using h
    · simp [hs] at h
  exact (C3_parseJsonSafely_attempts
      (fun s => if s = "7" then some (7 : Nat) else none) hTrim " 7 ").1 7
    (by decide)

/-- `containsHangul` from `api/_gemini_shared.js`: test for a character in
the ranges `ㄱ-ㆎ` or `가-힣`. -/
def isHangulChar (c : Char) : Bool :=
  (0x3131 ≤ c.toNat && c.toNat ≤ 0x318E) || (0xAC00 ≤ c.toNat && c.toNat ≤ 0xD7A3)

/-- `containsHangul` from `api/_gemini_shared.js` (lines 75-77). -/
def containsHangul (value : String) : Bool :=
  value.toList.any isHangulChar

/-- Removal of one pair of surrounding double quotes
(JS `replace(/^"(.*)"$/s, '$1')`). -/
def stripSurroundingQuotes (l : List Char) : List Char :=
  if 2 ≤ l.length && l.head? == some '"' && l.getLast? == some '"' then
    (l.drop 1).dropLast
  else l

/-- Case-insensitive anchored literal prefix test (`pat` given lowercased). -/
def prefixCI (pat l : List Char) : Bool :=
  (l.take pat.length).map Char.toLower == pat

/-- The optional `[,:]?` part of the meta-phrase regexes. -/
def dropOptPunct : List Char → List Char
  | [] => []
  | c :: rest => if c = ',' || c = ':' then rest else c :: rest

/-- The `[,:]?\s*` tail shared by the meta-phrase regexes. -/
def finishPhrase (l : List Char) : List Char :=
  (dropOptPunct l).dropWhile Char.isWhitespace

/-- JS `replace(/^(i mean[,:]?\s*)/i, '')`. -/
def stripMetaPhrase1 (l : List Char) : List Char :=
  if prefixCI "i mean".toList l then finishPhrase (l.drop 6) else l

/-- JS `replace(/^(a more natural way(?: to say this)? is[,:]?\s*)/i, '')`,
with the optional group resolved by the regex backtracking order. -/
def stripMetaPhrase2 (l : List Char) : List Char :=
  if prefixCI "a more natural way".toList l then
    let r := l.drop 18
    if prefixCI " to say this".toList r then
      if prefixCI " is".toList (r.drop 12) then finishPhrase (r.drop 15) else l
    else if prefixCI " is".toList r then finishPhrase (r.drop 3)
    else l
  else l

/-- JS `replace(/^(more naturally[,:]?\s*)/i, '')`. -/
def stripMetaPhrase3 (l : List Char) : List Char :=
  if prefixCI "more naturally".toList l then finishPhrase (l.drop 14) else l

/-- `cleanAlternativeText` from `api/_gemini_shared.js` (lines 79-88);
`none` models a non-string argument. -/
def cleanAlternativeText (value : Option String) : String :=
  match value with
  | none => ""
  | some s =>
    String.mk (trimChars (stripMetaPhrase3 (stripMetaPhrase2 (stripMetaPhrase1
      (stripSurroundingQuotes (trimChars s.toList))))))

/-- One raw alternative item as received from the model JSON
(`none` fields model non-string values). -/
structure RawAlt where
  text : Option String
  tone : Option String
  nuance : Option String
deriving DecidableEq, Repr

/-- One normalized alternative as returned to the client. -/
structure AltOut where
  text : String
  tone : String
  nuance : String
deriving DecidableEq, Repr

/-- The filter-map-filter pipeline of `normalizeNativeAlternatives`
(`api/_gemini_shared.js` lines 188-196). -/
def nnaProcessed (alternatives : List RawAlt) : List AltOut :=
  (((alternatives.filterMap fun item => item.text.map fun t => (t, item)).map
      fun p =>
        ({ text := cleanAlternativeText (some p.1),
           tone := match p.2.tone with
             | some t => if strTrim t ≠ "" then strTrim t else "Natural"
             | none => "Natural",
           nuance := match p.2.nuance with
             | some n => if strTrim n ≠ "" then strTrim n else "Natural phrasing"
             | none => "Natural phrasing" } : AltOut)).filter
    fun i => 0 < i.text.length).filter
    fun i => !(strLower i.text == "same as original")

/-- The dedupe-and-cap loop of `normalizeNativeAlternatives`
(`api/_gemini_shared.js` lines 198-206); `len` is the current output length. -/
def nnaDedupeGo : List AltOut → List String → Nat → List AltOut
  | [], _, _ => []
  | item :: rest, seen, len =>
    let key := normalizeForComparison item.text
    if key = "" || key ∈ seen then nnaDedupeGo rest seen len
    else if len + 1 = 3 then [item]
    else item :: nnaDedupeGo rest (key :: seen) (len + 1)

/-- `normalizeNativeAlternatives` from `api/_gemini_shared.js`
(lines 187-208). -/
def normalizeNativeAlternatives (alternatives : List RawAlt) : List AltOut :=
  nnaDedupeGo (nnaProcessed alternatives) [] 0

/-- First-occurrence deduplication of the non-empty keys of a list
(the specification-side count of distinct normalized candidate texts). -/
def dedupNonemptyKeys : List String → List String → List String
  | [], _ => []
  | k :: rest, seen =>
    if k = "" || k ∈ seen then dedupNonemptyKeys rest seen
    else k :: dedupNonemptyKeys rest (k :: seen)

/-- Model of `new Set(l)` membership list (first occurrences, in order). -/
def jsSetList : List String → List String → List String
  | [], _ => []
  | k :: rest, seen =>
    if k ∈ seen then jsSetList rest seen else k :: jsSetList rest (k :: seen)

/-- `isWeakNativeAlternativesResult` from `api/_gemini_shared.js`
(lines 210-218); the `!Array.isArray` disjunct is subsumed by the typed
argument. -/
def isWeakNativeAlternativesResult (sourceText : String)
    (alternatives : List AltOut) : Bool :=
  if alternatives.length < 3 then true
  else
    let sourceNorm := normalizeForComparison sourceText
    let uniqueNorms :=
      jsSetList (alternatives.map fun i => normalizeForComparison i.text) []
    if uniqueNorms.length < 3 then true
    else if alternatives.any fun i => normalizeForComparison i.text == sourceNorm
      then true
    else if containsHangul sourceText &&
        (alternatives.any fun i => containsHangul i.text) then true
    else false

/-- Removal of every Hangul character
(JS `replace(/[ㄱ-ㆎ가-힣]+/g, '')`). -/
def stripHangulChars (l : List Char) : List Char :=
  l.filter fun c => !(isHangulChar c)

/-- `buildFallbackNativeAlternatives` from `api/_gemini_shared.js`
(lines 220-231). -/
def buildFallbackNativeAlternatives (text : String) : List AltOut :=
  let compact := strTrim text
  let englishOnly :=
    if containsHangul compact then
      String.mk (trimChars (collapseWsGo (stripHangulChars compact.toList) false))
    else compact
  let base :=
    if englishOnly ≠ "" then englishOnly
    else if compact ≠ "" then compact
    else "Could you say that again?"
  [ { text := base, tone := "Neutral", nuance := "Closest available rewrite" },
    { text := "I feel like " ++ base, tone := "Casual",
      nuance := "Casual fallback wording" },
    { text := "I think " ++ base, tone := "Direct",
      nuance := "Direct fallback wording" } ]

example :
    normalizeNativeAlternatives [⟨some "Hello", none, none⟩] =
      [⟨"Hello", "Natural", "Natural phrasing"⟩] := by decide

example : (buildFallbackNativeAlternatives "hi").length = 3 := by decide

lemma nnaDedupeGo_length : ∀ (items : List AltOut) (seen : List String) (len : Nat),
    len ≤ 2 →
    (nnaDedupeGo items seen len).length =
      min (3 - len)
        (dedupNonemptyKeys (items.map fun i => normalizeForComparison i.text)
          seen).length := by
  intro items
  induction items with
  | nil => intro seen len _; simp [nnaDedupeGo, dedupNonemptyKeys]
  | cons item rest ih =>
    intro seen len hlen
    simp only [nnaDedupeGo, List.map_cons, dedupNonemptyKeys]
    by_cases hkey : (decide (normalizeForComparison item.text = "") ||
        decide (normalizeForComparison item.text ∈ seen)) = true
    · rw [if_pos hkey, if_pos hkey]
      exact ih seen len hlen
    · rw [if_neg hkey, if_neg hkey]
      by_cases h3 : len + 1 = 3
      · rw [if_pos h3]
        have hlen2 : len = 2 := by omega
        subst hlen2
        simp only [List.length_singleton, List.length_cons, List.length_nil]
        omega
      · rw [if_neg h3]
        simp only [List.length_cons]
        rw [ih (normalizeForComparison item.text :: seen) (len + 1) (by omega)]
        omega

/-- C4 (amended): `normalizeNativeAlternatives` returns exactly
`min 3 k` items, where `k` is the number of distinct non-empty normalized
texts among the valid (string-typed, non-empty after cleaning, not
"same as original") inputs — hence never fewer than that minimum and never
more than 3.  The rejection of alternatives identical to the source sentence
is not performed by `normalizeNativeAlternatives` (which never sees the
source) but by `isWeakNativeAlternativesResult`: whenever that check passes,
no returned item normalizes to the source. -/
theorem C4_normalizeNativeAlternatives_amended (alternatives : List RawAlt)
    (sourceText : String) :
    (normalizeNativeAlternatives alternatives).length =
      min 3 (dedupNonemptyKeys
        ((nnaProcessed alternatives).map fun i => normalizeForComparison i.text)
        []).length ∧
    (normalizeNativeAlternatives alternatives).length ≤ 3 ∧
    (isWeakNativeAlternativesResult sourceText
        (normalizeNativeAlternatives alternatives) = false →
      ∀ i ∈ normalizeNativeAlternatives alternatives,
        normalizeForComparison i.text ≠ normalizeForComparison sourceText) := by
  have hlen := nnaDedupeGo_length (nnaProcessed alternatives) [] 0 (by omega)
  have hlen3 : (normalizeNativeAlternatives alternatives).length =
      min 3 (dedupNonemptyKeys
        ((nnaProcessed alternatives).map fun i => normalizeForComparison i.text)
        []).length := by
    simpa [normalizeNativeAlternatives] using hlen
  refine ⟨hlen3, ?_, ?_⟩
  · rw [hlen3]
    exact min_le_left 3 _
  · intro hweak i hi heq
    unfold isWeakNativeAlternativesResult at hweak
    by_cases h1 : (normalizeNativeAlternatives alternatives).length < 3
    · rw [if_pos h1] at hweak
      simp at hweak
    · rw [if_neg h1] at hweak
      simp only [] at hweak
      have h3 : ((normalizeNativeAlternatives alternatives).any fun j =>
          normalizeForComparison j.text == normalizeForComparison sourceText) =
            true :=
        List.any_eq_true.mpr ⟨i, hi, beq_iff_eq.mpr heq⟩
      by_cases h2 : (jsSetList ((normalizeNativeAlternatives alternatives).map
          fun j => normalizeForComparison j.text) []).length < 3
      · rw [if_pos h2] at hweak
        simp at hweak
      · rw [if_neg h2, if_pos h3] at hweak
        simp at hweak

/-- Counterexample to C4 as frozen: for the source sentence `"Hello"`,
`normalizeNativeAlternatives` happily returns an alternative whose normalized
text equals the normalized source (it performs no source comparison). -/
theorem C4_counterexample :
    (normalizeNativeAlternatives [⟨some "Hello", none, none⟩]).map
        (fun i => normalizeForComparison i.text) =
      [normalizeForComparison "Hello"] := by decide

/-- A request as the API handlers see it: HTTP method, the `text`/`message`
body field (absent fields coerce to `""`), and the configured server API key
(`""` models a missing `GEMINI_API_KEY`). -/
structure ApiReq where
  method : String
  text : String
  apiKey : String
deriving DecidableEq, Repr

/-- An error thrown inside a handler: the optional HTTP status attached by
`callGeminiGenerateContent` (absent for fetch/parse failures) and the
message. -/
structure GErr where
  status : Option Nat
  message : String
deriving DecidableEq, Repr

/-- The `throw new Error('Invalid JSON payload')` of `parseJsonSafely`. -/
def invalidJsonErr : GErr := ⟨none, "Invalid JSON payload"⟩

/-- The `throw new Error('Insufficient alternatives')` of
`api/native-alternatives.js` line 164. -/
def insufficientErr : GErr := ⟨none, "Insufficient alternatives"⟩

/-- Response body of the native-alternatives handler. -/
inductive NativeBody where
  | failure (error : String)
  | alts (alternatives : List AltOut) (error : Option String)
deriving DecidableEq, Repr

/-- An HTTP response of the native-alternatives handler. -/
structure NativeResponse where
  status : Nat
  body : NativeBody
deriving DecidableEq, Repr

/-- The accept test repeated after every model stage
(`api/native-alternatives.js` lines 88-91, 106-109, 134-137, 159-162):
normalize, then require exactly 3 non-weak alternatives. -/
def acceptedAlts (src : String) (items : List RawAlt) : Option (List AltOut) :=
  let normalized := normalizeNativeAlternatives items
  if (normalized.length == 3) && !(isWeakNativeAlternativesResult src normalized)
    then some normalized
  else none

/-- One tier of the native-alternatives fallback ladder: run the model call
(`raw`), convert its text to candidate items, accept or fall through to
`next`; the second component counts the model calls made. -/
def stageStep (src : String) (raw : Except GErr String)
    (toItems : String → Except GErr (List RawAlt))
    (next : Except GErr (List AltOut) × Nat) :
    Except GErr (List AltOut) × Nat :=
  match raw with
  | .error e => (.error e, 1)
  | .ok r =>
    match toItems r with
    | .error e => (.error e, 1)
    | .ok items =>
      match acceptedAlts src items with
      | some n => (.ok n, 1)
      | none => (next.1, next.2 + 1)

/-- `parseJsonSafely(raw)?.alternatives || []` for the JSON stages
(`api/native-alternatives.js` lines 88, 106); a parse failure propagates to
the handler's catch.  `getAlternatives` abstracts the `?.alternatives || []`
projection out of the parsed JSON value. -/
def jsonStageItems {α : Type} (jsonParse : String → Option α)
    (getAlternatives : α → List RawAlt) (raw : String) :
    Except GErr (List RawAlt) :=
  match parseJsonSafely jsonParse raw with
  | some v => .ok (getAlternatives v)
  | none => .error invalidJsonErr

/-- Split of a character list at newline characters
(JS `String.prototype.split('\n')`, empty segments preserved). -/
def splitOnNewline : List Char → List (List Char)
  | [] => [[]]
  | c :: rest =>
    let r := splitOnNewline rest
    if c = '\n' then [] :: r
    else
      match r with
      | [] => [[c]]
      | h :: t => (c :: h) :: t

/-- JS `replace(/^\d+\)\s*/, '')`. -/
def stripLineNumberParen (l : List Char) : List Char :=
  let ds := l.takeWhile Char.isDigit
  if ds ≠ [] && (l.drop ds.length).head? == some ')' then
    ((l.drop ds.length).drop 1).dropWhile Char.isWhitespace
  else l

/-- JS `replace(/^\d+[.)]\s*/, '')`. -/
def stripLineNumberDotParen (l : List Char) : List Char :=
  let ds := l.takeWhile Char.isDigit
  if ds ≠ [] && ((l.drop ds.length).head? == some ')' ||
      (l.drop ds.length).head? == some '.') then
    ((l.drop ds.length).drop 1).dropWhile Char.isWhitespace
  else l

/-- JS `String.prototype.split('||')` (leftmost, non-overlapping). -/
def splitBarGo : List Char → List Char → List (List Char)
  | [], acc => [acc.reverse]
  | '|' :: '|' :: rest2, acc => acc.reverse :: splitBarGo rest2 []
  | c :: rest, acc => splitBarGo rest (c :: acc)

/-- The plaintext-list stage's line parsing
(`api/native-alternatives.js` lines 125-133). -/
def lineItemsOfRaw (raw : String) : List RawAlt :=
  ((((splitOnNewline raw.toList).map trimChars).filter
    fun l => l ≠ []).map stripLineNumberParen).map fun l =>
      let parts := (splitBarGo l []).map fun p => String.mk (trimChars p)
      ({ text := some (parts.getD 0 ""),
         tone := some (parts.getD 1 "Natural"),
         nuance := some (parts.getD 2 "Natural phrasing") } : RawAlt)

/-- The salvage stage's line parsing
(`api/native-alternatives.js` lines 153-158). -/
def salvageItemsOfRaw (raw : String) : List RawAlt :=
  ((((splitOnNewline raw.toList).map trimChars).filter
    fun l => l ≠ []).map stripLineNumberDotParen).map fun l =>
      ({ text := some (String.mk l), tone := some "Natural",
         nuance := some "Everyday phrasing" } : RawAlt)

/-- The four-tier try block of the native-alternatives handler
(`api/native-alternatives.js` lines 87-164), with the four model-call
outcomes passed in as `raw1`-`raw4`. -/
def nativeRun {α : Type} (jsonParse : String → Option α)
    (getAlternatives : α → List RawAlt) (src : String)
    (raw1 raw2 raw3 raw4 : Except GErr String) :
    Except GErr (List AltOut) × Nat :=
  stageStep src raw1 (jsonStageItems jsonParse getAlternatives)
    (stageStep src raw2 (jsonStageItems jsonParse getAlternatives)
      (stageStep src raw3 (fun r => .ok (lineItemsOfRaw r))
        (stageStep src raw4 (fun r => .ok (salvageItemsOfRaw r))
          (.error insufficientErr, 0))))

/-- `sourceTextForGeneration` (`api/native-alternatives.js` lines 43-49):
the prepared text (for Hangul inputs) or the input itself; `prepared` is the
outcome of `prepareNativeAlternativesSource`, which never throws. -/
def nativeSourceText (input prepared : String) : String :=
  let preparedSourceText := if containsHangul input then prepared else input
  if preparedSourceText = "" then input else preparedSourceText

/-- The native-alternatives handler (`api/native-alternatives.js`), returning
the response together with the number of upstream model calls made. -/
def nativeHandler {α : Type} (jsonParse : String → Option α)
    (getAlternatives : α → List RawAlt) (req : ApiReq) (prepared : String)
    (raw1 raw2 raw3 raw4 : Except GErr String) : NativeResponse × Nat :=
  if req.method ≠ "POST" then (⟨405, .failure "Method not allowed"⟩, 0)
  else
    let input := strTrim req.text
    if input = "" then (⟨400, .failure "text is required"⟩, 0)
    else if req.apiKey = "" then (⟨500, .failure "Missing GEMINI_API_KEY"⟩, 0)
    else
      let src := nativeSourceText input prepared
      let prepCalls := if containsHangul input then 1 else 0
      match nativeRun jsonParse getAlternatives src raw1 raw2 raw3 raw4 with
      | (.ok n, k) => (⟨200, .alts n none⟩, prepCalls + k)
      | (.error e, k) =>
        (⟨200, .alts (buildFallbackNativeAlternatives src)
          (some (if e.message = "" then "Fallback used" else e.message))⟩,
          prepCalls + k)

lemma acceptedAlts_length {src : String} {items : List RawAlt}
    {n : List AltOut} (h : acceptedAlts src items = some n) : n.length = 3 := by
  unfold acceptedAlts at h
  by_cases hc : ((normalizeNativeAlternatives items).length == 3) &&
      !(isWeakNativeAlternativesResult src (normalizeNativeAlternatives items))
  · rw [if_pos hc] at h
    have hn : normalizeNativeAlternatives items = n := Option.some_inj.mp h
    have h3 := (Bool.and_eq_true _ _).mp hc
    have hlen : (normalizeNativeAlternatives items).length = 3 :=
      beq_iff_eq.mp h3.1
    rw [← hn]
    exact hlen
  · rw [if_neg hc] at h
    exact Option.noConfusion h

lemma stageStep_ok {src : String} {raw : Except GErr String}
    {toItems : String → Except GErr (List RawAlt)}
    {next : Except GErr (List AltOut) × Nat} {n : List AltOut}
    (h : (stageStep src raw toItems next).1 = .ok n) :
    n.length = 3 ∨ next.1 = .ok n := by
  rcases raw with e | r
  · simp only [stageStep] at h
    exact Except.noConfusion h
  · rcases hti : toItems r with e | items
    · simp only [stageStep, hti] at h
      exact Except.noConfusion h
    · rcases hacc : acceptedAlts src items with _ | m
      · simp only [stageStep, hti, hacc] at h
        exact Or.inr h
      · simp only [stageStep, hti, hacc] at h
        have hmn : m = n := Except.ok.inj h
        exact Or.inl (hmn ▸ acceptedAlts_length hacc)

lemma nativeRun_ok_length {α : Type} {jsonParse : String → Option α}
    {getAlternatives : α → List RawAlt} {src : String}
    {raw1 raw2 raw3 raw4 : Except GErr String} {n : List AltOut}
    (h : (nativeRun jsonParse getAlternatives src raw1 raw2 raw3 raw4).1 =
      .ok n) : n.length = 3 := by
  unfold nativeRun at h
  rcases stageStep_ok h with h3 | h
  · exact h3
  rcases stageStep_ok h with h3 | h
  · exact h3
  rcases stageStep_ok h with h3 | h
  · exact h3
  rcases stageStep_ok h with h3 | h
  · exact h3
  · exact Except.noConfusion h

lemma buildFallback_length (s : String) :
    (buildFallbackNativeAlternatives s).length = 3 := rfl

/-- C6: for every valid POST to the native-alternatives handler (non-empty
text, configured key) and for every combination of model-call outcomes, the
handler responds with HTTP 200 and a non-empty (in fact 3-element)
alternatives array; when the whole tiered try block fails, the alternatives
are exactly the deterministic local fallback built from the source text. -/
theorem C6_nativeHandler_always_200 {α : Type} (jsonParse : String → Option α)
    (getAlternatives : α → List RawAlt) (req : ApiReq) (prepared : String)
    (raw1 raw2 raw3 raw4 : Except GErr String)
    (hm : req.method = "POST") (ht : strTrim req.text ≠ "")
    (hk : req.apiKey ≠ "") :
    ∃ alts err,
      (nativeHandler jsonParse getAlternatives req prepared
          raw1 raw2 raw3 raw4).1 = ⟨200, .alts alts err⟩ ∧
      alts.length = 3 ∧
      (∀ e, (nativeRun jsonParse getAlternatives
          (nativeSourceText (strTrim req.text) prepared)
          raw1 raw2 raw3 raw4).1 = .error e →
        alts = buildFallbackNativeAlternatives
          (nativeSourceText (strTrim req.text) prepared)) := by
  unfold nativeHandler
  rw [if_neg (by simp [hm]), if_neg ht, if_neg hk]
  simp only []
  rcases hrun : nativeRun jsonParse getAlternatives
      (nativeSourceText (strTrim req.text) prepared) raw1 raw2 raw3 raw4
    with ⟨res, k⟩
  rcases res with e | n
  · exact ⟨buildFallbackNativeAlternatives
        (nativeSourceText (strTrim req.text) prepared),
      some (if e.message = "" then "Fallback used" else e.message),
      rfl, buildFallback_length _, fun _ _ => rfl⟩
  · refine ⟨n, none, rfl, ?_, ?_⟩
    · exact nativeRun_ok_length (show _ = Except.ok n by rw [hrun])
    · intro e he
      simp at he

/-- Witness for C6: a concrete request whose four model calls all fail. -/
theorem C6_witness :
    ∃ alts err,
      (nativeHandler (fun _ : String => (none : Option Unit)) (fun _ => [])
          ⟨"POST", "hi", "k"⟩ "" (.error ⟨none, "x"⟩) (.error ⟨none, "x"⟩)
          (.error ⟨none, "x"⟩) (.error ⟨none, "x"⟩)).1 =
        ⟨200, .alts alts err⟩ ∧
      alts.length = 3 ∧
      (∀ e, (nativeRun (fun _ : String => (none : Option Unit)) (fun _ => [])
          (nativeSourceText (strTrim "hi") "")
          (.error ⟨none, "x"⟩) (.error ⟨none, "x"⟩) (.error ⟨none, "x"⟩)
          (.error ⟨none, "x"⟩)).1 = .error e →
        alts = buildFallbackNativeAlternatives
          (nativeSourceText (strTrim "hi") "")) :=
  C6_nativeHandler_always_200 (fun _ => none) (fun _ => [])
    ⟨"POST", "hi", "k"⟩ "" (.error ⟨none, "x"⟩) (.error ⟨none, "x"⟩)
    (.error ⟨none, "x"⟩) (.error ⟨none, "x"⟩) rfl (by decide) (by decide)

/-- The end-punctuation stripper local to `isMinorGrammarEdit`
(`api/_gemini_shared.js` line 93). -/
def stripEndPunctuation (value : String) : String :=
  strTrim (String.mk (stripTrailingPunct (strTrim value).toList))

/-- `isMinorGrammarEdit` from `api/_gemini_shared.js` (lines 90-95). -/
def isMinorGrammarEdit (wrong right : String) : Bool :=
  if wrong = "" || right = "" then false
  else if wrong = right then false
  else strLower (stripEndPunctuation wrong) == strLower (stripEndPunctuation right)

/-- Index of the first case-insensitive occurrence of `patLower` (given
lowercased); models `new RegExp(escapedLiteral, 'i')` search. -/
def findLowerIdx (patLower : List Char) : List Char → Option Nat
  | [] => if patLower = [] then some 0 else none
  | c :: rest =>
    if prefixCI patLower (c :: rest) then some 0
    else (findLowerIdx patLower rest).map (· + 1)

/-- Replacement of the first case-insensitive occurrence of `wrong` by
`right` (JS `next.replace(regex, right)` with an escaped-literal,
`i`-flagged regex; `$`-substitution in the replacement string is not
modelled). -/
def replaceFirstCI (hay wrong right : List Char) : List Char :=
  match findLowerIdx (wrong.map Char.toLower) hay with
  | some i => hay.take i ++ right ++ hay.drop (i + wrong.length)
  | none => hay

/-- Stable insertion of `x` into a descending-by-key list (ties keep `x`
first, matching a stable JS sort with comparator `b.key - a.key`). -/
def insertByKeyDesc {β : Type} (key : β → Nat) (x : β) : List β → List β
  | [] => [x]
  | y :: ys => if key y ≤ key x then x :: y :: ys else y :: insertByKeyDesc key x ys

/-- Stable descending sort by a natural-number key (model of
`Array.prototype.sort` with comparator `(a, b) => key(b) - key(a)`). -/
def sortByKeyDesc {β : Type} (key : β → Nat) : List β → List β
  | [] => []
  | x :: rest => insertByKeyDesc key x (sortByKeyDesc key rest)

/-- `applyGrammarEditsToText` from `api/_gemini_shared.js` (lines 128-142);
the `typeof` filter is subsumed by the typed edit list. -/
def applyGrammarEditsToText (sourceText : String)
    (edits : List GrammarEdit) : String :=
  let sorted := sortByKeyDesc (fun e => e.wrong.length) edits
  sorted.foldl
    (fun next edit =>
      let wrong := strTrim edit.wrong
      let right := strTrim edit.right
      if wrong = "" || right = "" || wrong = right then next
      else String.mk (replaceFirstCI next.toList wrong.toList right.toList))
    sourceText

/-- `applyFeedbackPointFixes` from `api/_gemini_shared.js` (lines 144-156). -/
def applyFeedbackPointFixes (sourceText : String)
    (feedbackPoints : List FeedbackPoint) : String :=
  let mapped := feedbackPoints.map fun item => (strTrim item.part, strTrim item.fix)
  let filtered := mapped.filter fun p =>
    p.1 ≠ "" && p.2 ≠ "" && !(isMinorSentenceDifference p.1 p.2)
  let sorted := sortByKeyDesc (fun p => p.1.length) filtered
  sorted.foldl
    (fun next p => String.mk (replaceFirstCI next.toList p.1.toList p.2.toList))
    sourceText

/-- One raw edit from the model JSON (`none` fields model non-strings). -/
structure RawEdit where
  wrong : Option String
  right : Option String
  reason : Option String
deriving DecidableEq, Repr

/-- One raw feedback point from the model JSON. -/
structure RawFP where
  part : Option String
  issue : Option String
  fix : Option String
deriving DecidableEq, Repr

/-- The projection of the model's parsed grammar JSON that the handler
reads (`Boolean(parsed?.hasErrors)` is a `Bool`; non-string / non-array
fields are `none`). -/
structure ParsedGrammar where
  hasErrors : Bool
  correctedText : Option String
  edits : Option (List RawEdit)
  feedback : Option String
  feedbackPoints : Option (List RawFP)
  naturalRewrite : Option String
  naturalAlternative : Option String
  naturalReason : Option String
deriving DecidableEq, Repr

/-- The per-edit coercion of `normalizedEdits`
(`api/grammar-feedback.js` lines 113-118): keep only string-typed
`wrong`/`right`, trim the fields. -/
def coerceRawEdit (e : RawEdit) : Option GrammarEdit :=
  match e.wrong, e.right with
  | some w, some r =>
    some { wrong := strTrim w
           right := strTrim r
           reason := (match e.reason with | some s => strTrim s | none => "") }
  | _, _ => none

/-- `normalizedEdits` of the grammar handler
(`api/grammar-feedback.js` lines 112-119). -/
def normalizedEditsOf (parsed : ParsedGrammar) : List GrammarEdit :=
  ((parsed.edits.getD []).filterMap coerceRawEdit).filter fun e =>
    !(isMinorGrammarEdit e.wrong e.right)

/-- The per-item coercion of `feedbackPointsFromModel`
(`api/grammar-feedback.js` lines 123-127). -/
def coerceRawFP (item : RawFP) : FeedbackPoint :=
  { part := (match item.part with | some s => strTrim s | none => "")
    issue := (match item.issue with | some s => strTrim s | none => "")
    fix := (match item.fix with | some s => strTrim s | none => "") }

/-- `feedbackPointsFromModel` continued: map, filter, cap at 6. -/
def feedbackPointsFromModelOf (parsed : ParsedGrammar) : List FeedbackPoint :=
  (((parsed.feedbackPoints.getD []).map coerceRawFP).filter fun i =>
    i.part ≠ "" && (i.issue ≠ "" || i.fix ≠ "")).take 6

/-- `feedbackPoints` of the grammar handler
(`api/grammar-feedback.js` lines 132-138). -/
def feedbackPointsOf (parsed : ParsedGrammar) : List FeedbackPoint :=
  let fromModel := feedbackPointsFromModelOf parsed
  if fromModel ≠ [] then fromModel
  else ((normalizedEditsOf parsed).take 6).map fun e =>
    { part := e.wrong,
      issue := if e.reason = "" then "Needs correction." else e.reason,
      fix := e.right }

/-- The success payload of the grammar handler (the fields of the JSON of
`api/grammar-feedback.js` lines 166-176; `errMsg` is the extra `error`
field of the catch payload). -/
structure GrammarPayload where
  hasErrors : Bool
  correctedText : String
  edits : List GrammarEdit
  feedback : String
  feedbackPoints : List FeedbackPoint
  naturalAlternative : String
  naturalReason : String
  naturalRewrite : String
  errMsg : Option String
deriving DecidableEq, Repr

/-- Response body of the grammar handler. -/
inductive GrammarBody where
  | failure (error : String)
  | payload (p : GrammarPayload)
deriving DecidableEq, Repr

/-- An HTTP response of the grammar handler. -/
structure GrammarResponse where
  status : Nat
  body : GrammarBody
deriving DecidableEq, Repr

/-- The success-path payload computation of the grammar handler
(`api/grammar-feedback.js` lines 112-176). -/
def grammarSuccessBody (input : String) (parsed : ParsedGrammar) :
    GrammarPayload :=
  let normalizedEdits := normalizedEditsOf parsed
  let feedbackPoints := feedbackPointsOf parsed
  let correctedTextRaw := match parsed.correctedText with
    | some s => if strTrim s ≠ "" then strTrim s else input
    | none => input
  let correctedHeuristic := applyGrammarEditsToText input normalizedEdits
  let correctedHeuristicWithFeedback :=
    applyFeedbackPointFixes correctedHeuristic feedbackPoints
  let correctedRawWithFeedback :=
    applyFeedbackPointFixes correctedTextRaw feedbackPoints
  let correctedText := pickBestCorrectedText input
    [correctedTextRaw, correctedRawWithFeedback, correctedHeuristic,
      correctedHeuristicWithFeedback] normalizedEdits feedbackPoints
  let feedback := match parsed.feedback with
    | some s => if strTrim s ≠ "" then strTrim s else "Looks good overall."
    | none => "Looks good overall."
  let naturalAlternative :=
    cleanAlternativeText (some (parsed.naturalAlternative.getD ""))
  let naturalReason := match parsed.naturalReason with
    | some s => if strTrim s ≠ "" then strTrim s else ""
    | none => ""
  let naturalRewriteRaw :=
    cleanAlternativeText (some (parsed.naturalRewrite.getD ""))
  let naturalRewriteFallback :=
    if naturalRewriteRaw ≠ "" then naturalRewriteRaw
    else if !normalizedEdits.isEmpty &&
        !(isMinorSentenceDifference input correctedText) then correctedText
    else ""
  let hasUsableNaturalAlternative := naturalAlternative ≠ "" &&
    !(isMinorSentenceDifference input naturalAlternative)
  let hasUsableNaturalRewrite := naturalRewriteFallback ≠ "" &&
    !(isMinorSentenceDifference input naturalRewriteFallback) &&
    !(isMinorSentenceDifference correctedText naturalRewriteFallback)
  { hasErrors := parsed.hasErrors && !normalizedEdits.isEmpty,
    correctedText :=
      if parsed.hasErrors && !normalizedEdits.isEmpty then correctedText
      else input,
    edits := normalizedEdits,
    feedback := feedback,
    feedbackPoints := feedbackPoints,
    naturalAlternative :=
      if hasUsableNaturalAlternative then naturalAlternative else "",
    naturalReason := if hasUsableNaturalAlternative then naturalReason else "",
    naturalRewrite :=
      if hasUsableNaturalRewrite then naturalRewriteFallback else "",
    errMsg := none }

/-- The catch payload of the grammar handler
(`api/grammar-feedback.js` lines 177-191). -/
def grammarCatchBody (input : String) (e : GErr) : GrammarPayload :=
  { hasErrors := false, correctedText := input, edits := [],
    feedback := "Looks good overall.", feedbackPoints := [],
    naturalAlternative := "", naturalReason := "", naturalRewrite := "",
    errMsg := some (if e.message = "" then "Grammar feedback failed"
      else e.message) }

/-- The grammar-feedback handler (`api/grammar-feedback.js`); `attempt1` and
`attempt2` are the outcomes of the two model-call-plus-parse attempts (the
retry runs only when the first attempt fails, and the second attempt's error
is the one reaching the catch).  The second component counts upstream model
calls. -/
def grammarHandler (req : ApiReq)
    (attempt1 attempt2 : Except GErr ParsedGrammar) :
    GrammarResponse × Nat :=
  if req.method ≠ "POST" then (⟨405, .failure "Method not allowed"⟩, 0)
  else
    let input := strTrim req.text
    if input = "" then (⟨400, .failure "text is required"⟩, 0)
    else if req.apiKey = "" then (⟨500, .failure "Missing GEMINI_API_KEY"⟩, 0)
    else
      match attempt1 with
      | .ok parsed => (⟨200, .payload (grammarSuccessBody input parsed)⟩, 1)
      | .error _ =>
        match attempt2 with
        | .ok parsed => (⟨200, .payload (grammarSuccessBody input parsed)⟩, 2)
        | .error e2 =>
          (⟨e2.status.getD 500, .payload (grammarCatchBody input e2)⟩, 2)

/-- C5 (amended): for every POST to the grammar-feedback handler with
non-empty text and a configured key, when both the primary and the retry
model attempts fail, the handler responds with the retry error's HTTP status
when one is attached and 500 otherwise — not an unconditional 200 — carrying
the best-effort default payload whose `correctedText` is the trimmed input
and whose `edits` list is empty; a missing server-side API key yields the
hard 500 configuration error before any model call. -/
theorem C5_grammar_failure_semantics (req : ApiReq) (e1 e2 : GErr)
    (hm : req.method = "POST") (ht : strTrim req.text ≠ "") :
    (req.apiKey ≠ "" →
      grammarHandler req (.error e1) (.error e2) =
        (⟨e2.status.getD 500,
          .payload (grammarCatchBody (strTrim req.text) e2)⟩, 2) ∧
      (grammarCatchBody (strTrim req.text) e2).correctedText =
        strTrim req.text ∧
      (grammarCatchBody (strTrim req.text) e2).edits = []) ∧
    (req.apiKey = "" →
      grammarHandler req (.error e1) (.error e2) =
        (⟨500, .failure "Missing GEMINI_API_KEY"⟩, 0)) := by
  constructor
  · intro hk
    refine ⟨?_, rfl, rfl⟩
    unfold grammarHandler
    rw [if_neg (by simp [hm]), if_neg ht, if_neg hk]
  · intro hk
    unfold grammarHandler
    rw [if_neg (by simp [hm]), if_neg ht, if_pos hk]

/-- Witness for C5 (amended): a concrete double failure with an upstream
status on the retry error. -/
theorem C5_witness :
    grammarHandler ⟨"POST", "hi", "k"⟩ (.error ⟨none, "Invalid JSON payload"⟩)
        (.error ⟨some 429, "quota"⟩) =
      (⟨429, .payload (grammarCatchBody "hi" ⟨some 429, "quota"⟩)⟩, 2) :=
  ((C5_grammar_failure_semantics ⟨"POST", "hi", "k"⟩
      ⟨none, "Invalid JSON payload"⟩ ⟨some 429, "quota"⟩ rfl (by decide)).1
    (by decide)).1

/-- Counterexample to C5 as frozen: both attempts fail with a status-less
parse error; the handler answers 500, not 200, while still carrying the
best-effort payload. -/
theorem C5_counterexample :
    (grammarHandler ⟨"POST", "hi", "k"⟩
        (.error ⟨none, "Invalid JSON payload"⟩)
        (.error ⟨none, "Invalid JSON payload"⟩)).1.status = 500 ∧
    (500 : Nat) ≠ 200 := by
  constructor
  · decide
  · decide

/-- C9: every payload-shaped response of the grammar handler satisfies the
implicit invariant: `hasErrors` only with a non-empty `edits` list, and
`hasErrors = false` forces `correctedText` to be exactly the trimmed input. -/
theorem C9_grammar_payload_invariant (req : ApiReq)
    (attempt1 attempt2 : Except GErr ParsedGrammar) (b : GrammarPayload)
    (hb : (grammarHandler req attempt1 attempt2).1.body = .payload b) :
    (b.hasErrors = true → b.edits ≠ []) ∧
    (b.hasErrors = false → b.correctedText = strTrim req.text) := by
  have hsucc : ∀ parsed : ParsedGrammar,
      b = grammarSuccessBody (strTrim req.text) parsed →
      (b.hasErrors = true → b.edits ≠ []) ∧
      (b.hasErrors = false → b.correctedText = strTrim req.text) := by
    intro parsed hbe
    subst hbe
    constructor
    · intro h he
      have h2 : (!(normalizedEditsOf parsed).isEmpty) = true :=
        ((Bool.and_eq_true _ _).mp h).2
      rw [show (grammarSuccessBody (strTrim req.text) parsed).edits =
        normalizedEditsOf parsed from rfl] at he
      rw [he] at h2
      simp at h2
    · intro h
      have hcond : (parsed.hasErrors && !(normalizedEditsOf parsed).isEmpty) =
          false := h
      show (if parsed.hasErrors && !(normalizedEditsOf parsed).isEmpty then _
        else strTrim req.text) = strTrim req.text
      rw [hcond]
      simp
  have hcatch : ∀ e : GErr, b = grammarCatchBody (strTrim req.text) e →
      (b.hasErrors = true → b.edits ≠ []) ∧
      (b.hasErrors = false → b.correctedText = strTrim req.text) := by
    intro e hbe
    subst hbe
    exact ⟨fun h => by simp [grammarCatchBody] at h, fun _ => rfl⟩
  unfold grammarHandler at hb
  by_cases hm : req.method ≠ "POST"
  · rw [if_pos hm] at hb
    exact GrammarBody.noConfusion hb
  · rw [if_neg hm] at hb
    by_cases ht : strTrim req.text = ""
    · rw [if_pos ht] at hb
      exact GrammarBody.noConfusion hb
    · rw [if_neg ht] at hb
      by_cases hk : req.apiKey = ""
      · rw [if_pos hk] at hb
        exact GrammarBody.noConfusion hb
      · rw [if_neg hk] at hb
        rcases attempt1 with e1 | p1
        · rcases attempt2 with e2 | p2
          · exact hcatch e2 (GrammarBody.payload.inj hb.symm)
          · exact hsucc p2 (GrammarBody.payload.inj hb.symm)
        · exact hsucc p1 (GrammarBody.payload.inj hb.symm)

/-- Witness for C9: a concrete catch-path payload. -/
theorem C9_witness :
    ((grammarHandler ⟨"POST", "ok text", "k"⟩ (.error ⟨none, "boom"⟩)
        (.error ⟨none, "boom"⟩)).1.body =
      .payload (grammarCatchBody "ok text" ⟨none, "boom"⟩)) ∧
    ((grammarCatchBody "ok text" ⟨none, "boom"⟩).hasErrors = false →
      (grammarCatchBody "ok text" ⟨none, "boom"⟩).correctedText =
        strTrim "ok text") :=
  ⟨by decide,
    (C9_grammar_payload_invariant ⟨"POST", "ok text", "k"⟩
      (.error ⟨none, "boom"⟩) (.error ⟨none, "boom"⟩)
      (grammarCatchBody "ok text" ⟨none, "boom"⟩) (by decide)).2⟩

/-- Response body of the chat and translate handlers. -/
inductive SimpleBody where
  | failure (error : String)
  | reply (text : String)
deriving DecidableEq, Repr

/-- An HTTP response of the chat or translate handler. -/
structure SimpleResponse where
  status : Nat
  body : SimpleBody
deriving DecidableEq, Repr

/-- The chat handler (`api/chat.js`); `attempt` is the outcome of the single
Gemini call combined with `extractCandidateText` (prompt/history assembly is
upstream-request payload and does not affect the response shape).  The
second component counts upstream model calls. -/
def chatHandler (req : ApiReq) (attempt : Except GErr String) :
    SimpleResponse × Nat :=
  if req.method ≠ "POST" then (⟨405, .failure "Method not allowed"⟩, 0)
  else
    let input := strTrim req.text
    if input = "" then (⟨400, .failure "message is required"⟩, 0)
    else if req.apiKey = "" then (⟨500, .failure "Missing GEMINI_API_KEY"⟩, 0)
    else
      match attempt with
      | .ok reply =>
        if reply = "" then (⟨502, .failure "Empty chat reply"⟩, 1)
        else (⟨200, .reply reply⟩, 1)
      | .error e =>
        (⟨e.status.getD 500,
          .failure (if e.message = "" then "Chat failed" else e.message)⟩, 1)

/-- The translate handler (`api/translate.js`); `attempt` is the outcome of
the single Gemini call combined with `extractCandidateText`.  A missing API
key surfaces inside `attempt` (thrown by `callGeminiGenerateContent`), so
there is no separate key check. -/
def translateHandler (req : ApiReq) (attempt : Except GErr String) :
    SimpleResponse × Nat :=
  if req.method ≠ "POST" then (⟨405, .failure "Method not allowed"⟩, 0)
  else
    let input := strTrim req.text
    if input = "" then (⟨400, .failure "text is required"⟩, 0)
    else
      match attempt with
      | .ok t =>
        (⟨200, .reply (if t = "" then "번역 실패 (데이터 없음)" else t)⟩, 1)
      | .error e =>
        (⟨e.status.getD 500,
          .failure (if e.message = "" then "Translation failed"
            else e.message)⟩, 1)

/-- C10: all four feature handlers reject a non-POST method with 405
"Method not allowed" and an empty or whitespace-only text/message with a
400 "required" error, in both cases making zero upstream calls. -/
theorem C10_handler_request_validation {α : Type}
    (jsonParse : String → Option α) (getAlternatives : α → List RawAlt)
    (req : ApiReq) (prepared : String)
    (a1 a2 : Except GErr ParsedGrammar)
    (raw1 raw2 raw3 raw4 : Except GErr String)
    (chatAttempt translateAttempt : Except GErr String) :
    (req.method ≠ "POST" →
      grammarHandler req a1 a2 = (⟨405, .failure "Method not allowed"⟩, 0) ∧
      nativeHandler jsonParse getAlternatives req prepared
          raw1 raw2 raw3 raw4 = (⟨405, .failure "Method not allowed"⟩, 0) ∧
      chatHandler req chatAttempt = (⟨405, .failure "Method not allowed"⟩, 0) ∧
      translateHandler req translateAttempt =
        (⟨405, .failure "Method not allowed"⟩, 0)) ∧
    (req.method = "POST" → strTrim req.text = "" →
      grammarHandler req a1 a2 = (⟨400, .failure "text is required"⟩, 0) ∧
      nativeHandler jsonParse getAlternatives req prepared
          raw1 raw2 raw3 raw4 = (⟨400, .failure "text is required"⟩, 0) ∧
      chatHandler req chatAttempt =
        (⟨400, .failure "message is required"⟩, 0) ∧
      translateHandler req translateAttempt =
        (⟨400, .failure "text is required"⟩, 0)) := by
  constructor
  · intro hm
    refine ⟨?_, ?_, ?_, ?_⟩
    · unfold grammarHandler
      rw [if_pos hm]
    · unfold nativeHandler
      rw [if_pos hm]
    · unfold chatHandler
      rw [if_pos hm]
    · unfold translateHandler
      rw [if_pos hm]
  · intro hm ht
    refine ⟨?_, ?_, ?_, ?_⟩
    · unfold grammarHandler
      rw [if_neg (by simp [hm]), if_pos ht]
    · unfold nativeHandler
      rw [if_neg (by simp [hm]), if_pos ht]
    · unfold chatHandler
      rw [if_neg (by simp [hm]), if_pos ht]
    · unfold translateHandler
      rw [if_neg (by simp [hm]), if_pos ht]

/-- Witness for C10: a GET request and a whitespace-only POST. -/
theorem C10_witness :
    grammarHandler ⟨"GET", "hi", "k"⟩ (.error ⟨none, "x"⟩)
        (.error ⟨none, "x"⟩) = (⟨405, .failure "Method not allowed"⟩, 0) ∧
    translateHandler ⟨"POST", "  ", "k"⟩ (.ok "t") =
      (⟨400, .failure "text is required"⟩, 0) :=
  ⟨((C10_handler_request_validation (fun _ : String => (none : Option Unit))
      (fun _ => []) ⟨"GET", "hi", "k"⟩ "" (.error ⟨none, "x"⟩)
      (.error ⟨none, "x"⟩) (.error ⟨none, "x"⟩) (.error ⟨none, "x"⟩)
      (.error ⟨none, "x"⟩) (.error ⟨none, "x"⟩) (.ok "t") (.ok "t")).1
      (by decide)).1,
    (((C10_handler_request_validation (fun _ : String => (none : Option Unit))
      (fun _ => []) ⟨"POST", "  ", "k"⟩ "" (.error ⟨none, "x"⟩)
      (.error ⟨none, "x"⟩) (.error ⟨none, "x"⟩) (.error ⟨none, "x"⟩)
      (.error ⟨none, "x"⟩) (.error ⟨none, "x"⟩) (.ok "t") (.ok "t")).2
      rfl (by decide)).2).2.2⟩

/-- The eight fields of `MEMORY_PROFILE_KEYS` (`api/memory-summary.js`
lines 15-24). -/
inductive MemoryFieldKey where
  | hobbies | goals | projects | personalityTraits
  | dailyRoutine | preferences | background | notes
deriving DecidableEq, Repr

/-- A raw memory profile as supplied by a client or the model: each field is
`none` for a non-array value (and a wholly non-object profile is `none` at
the call sites); array elements are the JS-coerced strings. -/
structure MemoryProfileIn where
  hobbies : Option (List String)
  goals : Option (List String)
  projects : Option (List String)
  personalityTraits : Option (List String)
  dailyRoutine : Option (List String)
  preferences : Option (List String)
  background : Option (List String)
  notes : Option (List String)
deriving DecidableEq, Repr

/-- A sanitized memory profile (`emptyMemoryProfile` shape,
`api/memory-summary.js` lines 178-189). -/
structure MemoryProfile where
  hobbies : List String
  goals : List String
  projects : List String
  personalityTraits : List String
  dailyRoutine : List String
  preferences : List String
  background : List String
  notes : List String
deriving DecidableEq, Repr

/-- Field lookup by key. -/
def MemoryProfile.get (p : MemoryProfile) : MemoryFieldKey → List String
  | .hobbies => p.hobbies
  | .goals => p.goals
  | .projects => p.projects
  | .personalityTraits => p.personalityTraits
  | .dailyRoutine => p.dailyRoutine
  | .preferences => p.preferences
  | .background => p.background
  | .notes => p.notes

/-- Field update by key. -/
def MemoryProfile.set (p : MemoryProfile) :
    MemoryFieldKey → List String → MemoryProfile
  | .hobbies, l => { p with hobbies := l }
  | .goals, l => { p with goals := l }
  | .projects, l => { p with projects := l }
  | .personalityTraits, l => { p with personalityTraits := l }
  | .dailyRoutine, l => { p with dailyRoutine := l }
  | .preferences, l => { p with preferences := l }
  | .background, l => { p with background := l }
  | .notes, l => { p with notes := l }

/-- The alternation list of the leading-tag regex of `normalizeStringArray`
(`api/memory-summary.js` line 211), in regex order. -/
def memoryTagLabels : List String :=
  ["hobby", "hobbies", "goal", "goals", "project", "projects", "trait",
    "traits", "personality", "routine", "daily routine", "preference",
    "preferences", "background", "note", "notes"]

/-- JS `replace(/^\[(hobby|...|notes)\]\s*/i, '')`: the first alternation
label bracketed at the start of the list wins. -/
def stripLeadingTag (l : List Char) : List Char :=
  match memoryTagLabels.find? (fun lab =>
      prefixCI ("[" ++ lab ++ "]").toList l) with
  | some lab => (l.drop (lab.length + 2)).dropWhile Char.isWhitespace
  | none => l

/-- JS `replace(/^[-•*]\s*/, '')`. -/
def stripLeadingBullet : List Char → List Char
  | [] => []
  | c :: rest =>
    if c = '-' || c = '•' || c = '*' then rest.dropWhile Char.isWhitespace
    else c :: rest

/-- The per-item cleaning of `normalizeStringArray`
(`api/memory-summary.js` lines 208-214): trim, collapse whitespace, strip a
leading tag, strip a leading bullet, cut to 180 characters, trim. -/
def memItemClean (raw : String) : String :=
  strTrim (String.mk ((stripLeadingBullet (stripLeadingTag
    (collapseWsGo (trimChars raw.toList) false))).take 180))

/-- The dedupe-and-cap loop of `normalizeStringArray`
(`api/memory-summary.js` lines 205-222); `len` is the current output
length. -/
def normalizeStringArrayGo : List String → List String → Nat → List String
  | [], _, _ => []
  | raw :: rest, seen, len =>
    let text := memItemClean raw
    if text = "" then normalizeStringArrayGo rest seen len
    else
      let key := strLower text
      if key ∈ seen then normalizeStringArrayGo rest seen len
      else if 8 ≤ len + 1 then [text]
      else text :: normalizeStringArrayGo rest (key :: seen) (len + 1)

/-- `normalizeStringArray` from `api/memory-summary.js` (lines 202-223);
`none` models a non-array value. -/
def normalizeStringArray (value : Option (List String)) : List String :=
  match value with
  | none => []
  | some l => normalizeStringArrayGo l [] 0

/-- `sanitizeMemoryProfile` from `api/memory-summary.js` (lines 191-200);
`none` models a non-object value. -/
def sanitizeMemoryProfile (value : Option MemoryProfileIn) : MemoryProfile :=
  match value with
  | none =>
    { hobbies := [], goals := [], projects := [], personalityTraits := [],
      dailyRoutine := [], preferences := [], background := [], notes := [] }
  | some v =>
    { hobbies := normalizeStringArray v.hobbies
      goals := normalizeStringArray v.goals
      projects := normalizeStringArray v.projects
      personalityTraits := normalizeStringArray v.personalityTraits
      dailyRoutine := normalizeStringArray v.dailyRoutine
      preferences := normalizeStringArray v.preferences
      background := normalizeStringArray v.background
      notes := normalizeStringArray v.notes }

/-- The per-field concat-dedupe-cap loop of `mergeMemoryProfiles`
(`api/memory-summary.js` lines 230-241). -/
def mergeFieldGo : List String → List String → Nat → List String
  | [], _, _ => []
  | c :: rest, seen, len =>
    let norm := strLower c
    if norm ∈ seen then mergeFieldGo rest seen len
    else if 8 ≤ len + 1 then [c]
    else c :: mergeFieldGo rest (norm :: seen) (len + 1)

/-- `mergeMemoryProfiles` from `api/memory-summary.js` (lines 225-244). -/
def mergeMemoryProfiles (primary secondary : Option MemoryProfileIn) :
    MemoryProfile :=
  let a := sanitizeMemoryProfile primary
  let b := sanitizeMemoryProfile secondary
  { hobbies := mergeFieldGo (a.hobbies ++ b.hobbies) [] 0
    goals := mergeFieldGo (a.goals ++ b.goals) [] 0
    projects := mergeFieldGo (a.projects ++ b.projects) [] 0
    personalityTraits :=
      mergeFieldGo (a.personalityTraits ++ b.personalityTraits) [] 0
    dailyRoutine := mergeFieldGo (a.dailyRoutine ++ b.dailyRoutine) [] 0
    preferences := mergeFieldGo (a.preferences ++ b.preferences) [] 0
    background := mergeFieldGo (a.background ++ b.background) [] 0
    notes := mergeFieldGo (a.notes ++ b.notes) [] 0 }

/-- The `labelMap` of `parseTaggedMemoryItem`
(`api/memory-summary.js` lines 319-336). -/
def memoryLabelMap (label : String) : Option MemoryFieldKey :=
  if label = "hobby" || label = "hobbies" then some .hobbies
  else if label = "goal" || label = "goals" then some .goals
  else if label = "project" || label = "projects" then some .projects
  else if label = "trait" || label = "traits" || label = "personality" then
    some .personalityTraits
  else if label = "routine" || label = "daily routine" then some .dailyRoutine
  else if label = "preference" || label = "preferences" then some .preferences
  else if label = "background" then some .background
  else if label = "note" || label = "notes" then some .notes
  else none

/-- The lazy `\[(.+?)\]` split of `parseTaggedMemoryItem`: the first closing
bracket with a non-empty label before it and at least one character after it
(the regex backtracking order on `/^\[(.+?)\]\s*(.+)$/`). -/
def tagSplitGo : List Char → List Char → Option (List Char × List Char)
  | _, [] => none
  | acc, c :: tail =>
    if c = ']' ∧ acc ≠ [] ∧ tail ≠ [] then some (acc.reverse, tail)
    else tagSplitGo (c :: acc) tail

/-- `parseTaggedMemoryItem` from `api/memory-summary.js` (lines 310-341). -/
def parseTaggedMemoryItem (value : String) :
    Option (MemoryFieldKey × String) :=
  match (strTrim value).toList with
  | '[' :: rest =>
    match tagSplitGo [] rest with
    | some (labelChars, suffix) =>
      let rawLabel := strLower (strTrim (String.mk labelChars))
      let payload := strTrim (String.mk suffix)
      if payload = "" then none
      else
        match memoryLabelMap rawLabel with
        | some key => some (key, payload)
        | none => none
    | none => none
  | _ => none

/-- `pushUnique` from `api/memory-summary.js` (lines 358-363). -/
def pushUnique (target : List String) (item : String) : List String :=
  let text := strTrim item
  if text = "" then target
  else if target.any fun existing => strLower existing == strLower text then
    target
  else target ++ [text]

/-- One iteration of the note-redistribution loop of
`rebalanceMemoryProfile` (`api/memory-summary.js` lines 286-299); the
accumulator carries the profile under construction and `remainingNotes`.
`classify` abstracts the keyword router `classifyMemoryItem` (lines
343-356); the claims proved below hold for every router. -/
def rebalanceStep (classify : String → MemoryFieldKey)
    (acc : MemoryProfile × List String) (note : String) :
    MemoryProfile × List String :=
  match parseTaggedMemoryItem note with
  | some (key, payload) =>
    (acc.1.set key (pushUnique (acc.1.get key) payload), acc.2)
  | none =>
    let guessedKey := classify note
    if guessedKey ≠ .notes then
      (acc.1.set guessedKey (pushUnique (acc.1.get guessedKey) note), acc.2)
    else (acc.1, acc.2 ++ [note])

/-- `rebalanceMemoryProfile` from `api/memory-summary.js` (lines 275-308). -/
def rebalanceMemoryProfile (classify : String → MemoryFieldKey)
    (profile : Option MemoryProfileIn) : MemoryProfile :=
  let safe := sanitizeMemoryProfile profile
  let start : MemoryProfile :=
    { hobbies := safe.hobbies, goals := safe.goals, projects := safe.projects,
      personalityTraits := safe.personalityTraits,
      dailyRoutine := safe.dailyRoutine, preferences := safe.preferences,
      background := safe.background, notes := [] }
  let stepped := safe.notes.foldl (rebalanceStep classify) (start, [])
  let next := stepped.1.set .notes (normalizeStringArray (some stepped.2))
  { hobbies := normalizeStringArray (some next.hobbies)
    goals := normalizeStringArray (some next.goals)
    projects := normalizeStringArray (some next.projects)
    personalityTraits := normalizeStringArray (some next.personalityTraits)
    dailyRoutine := normalizeStringArray (some next.dailyRoutine)
    preferences := normalizeStringArray (some next.preferences)
    background := normalizeStringArray (some next.background)
    notes := normalizeStringArray (some next.notes) }

/-- The per-field well-formedness of the memory-profile claims: at most 8
non-empty items of at most 180 characters, pairwise distinct
case-insensitively. -/
def WfField (l : List String) : Prop :=
  l.length ≤ 8 ∧ (∀ s ∈ l, s ≠ "" ∧ s.length ≤ 180) ∧
  l.Pairwise fun x y => strLower x ≠ strLower y

/-- Well-formedness of every field of a memory profile. -/
def WfProfile (p : MemoryProfile) : Prop :=
  ∀ k : MemoryFieldKey, WfField (p.get k)

lemma trimChars_length_le (l : List Char) : (trimChars l).length ≤ l.length := by
  unfold trimChars
  calc ((l.dropWhile Char.isWhitespace).reverse.dropWhile
          Char.isWhitespace).reverse.length
      = ((l.dropWhile Char.isWhitespace).reverse.dropWhile
          Char.isWhitespace).length := List.length_reverse _
    _ ≤ (l.dropWhile Char.isWhitespace).reverse.length :=
        (List.dropWhile_suffix _).sublist.length_le
    _ = (l.dropWhile Char.isWhitespace).length := List.length_reverse _
    _ ≤ l.length := (List.dropWhile_suffix _).sublist.length_le

lemma memItemClean_length (raw : String) : (memItemClean raw).length ≤ 180 := by
  unfold memItemClean strTrim
  show (trimChars _).length ≤ 180
  calc (trimChars ((stripLeadingBullet (stripLeadingTag
          (collapseWsGo (trimChars raw.toList) false))).take 180)).length
      ≤ ((stripLeadingBullet (stripLeadingTag
          (collapseWsGo (trimChars raw.toList) false))).take 180).length :=
        trimChars_length_le _
    _ ≤ 180 := by
        rw [List.length_take]
        exact min_le_left _ _

lemma wfField_nil : WfField [] := by
  refine ⟨by simp, by simp, by simp⟩

lemma normalizeStringArrayGo_wf : ∀ (l seen : List String) (len : Nat),
    len ≤ 7 →
    (normalizeStringArrayGo l seen len).length + len ≤ 8 ∧
    (∀ s ∈ normalizeStringArrayGo l seen len,
      s ≠ "" ∧ s.length ≤ 180 ∧ ¬ strLower s ∈ seen) ∧
    (normalizeStringArrayGo l seen len).Pairwise
      (fun x y => strLower x ≠ strLower y) := by
  intro l
  induction l with
  | nil =>
    intro seen len hlen
    refine ⟨by simp [normalizeStringArrayGo]; omega,
      by simp [normalizeStringArrayGo], by simp [normalizeStringArrayGo]⟩
  | cons raw rest ih =>
    intro seen len hlen
    simp only [normalizeStringArrayGo]
    by_cases hempty : memItemClean raw = ""
    · rw [if_pos hempty]
      exact ih seen len hlen
    · rw [if_neg hempty]
      by_cases hseen : strLower (memItemClean raw) ∈ seen
      · rw [if_pos hseen]
        exact ih seen len hlen
      · rw [if_neg hseen]
        by_cases hbreak : 8 ≤ len + 1
        · rw [if_pos hbreak]
          refine ⟨by simp; omega, ?_, by simp⟩
          intro s hs
          rcases List.mem_singleton.mp hs with rfl
          exact ⟨hempty, memItemClean_length raw, hseen⟩
        · rw [if_neg hbreak]
          obtain ⟨ihlen, ihmem, ihpw⟩ :=
            ih (strLower (memItemClean raw) :: seen) (len + 1) (by omega)
          refine ⟨by simp; omega, ?_, ?_⟩
          · intro s hs
            rcases List.mem_cons.mp hs with rfl | hs'
            · exact ⟨hempty, memItemClean_length raw, hseen⟩
            · obtain ⟨h1, h2, h3⟩ := ihmem s hs'
              exact ⟨h1, h2, fun hmem => h3 (List.mem_cons_of_mem _ hmem)⟩
          · refine List.Pairwise.cons ?_ ihpw
            intro y hy
            obtain ⟨_, _, h3⟩ := ihmem y hy
            intro heq
            exact h3 (heq ▸ List.mem_cons_self _ _)

lemma normalizeStringArray_wfField (v : Option (List String)) :
    WfField (normalizeStringArray v) := by
  cases v with
  | none => exact wfField_nil
  | some l =>
    obtain ⟨h1, h2, h3⟩ := normalizeStringArrayGo_wf l [] 0 (by omega)
    refine ⟨?_, ?_, ?_⟩
    · show (normalizeStringArrayGo l [] 0).length ≤ 8
      omega
    · intro s hs
      exact ⟨(h2 s hs).1, (h2 s hs).2.1⟩
    · exact h3

lemma mergeFieldGo_wf : ∀ (l seen : List String) (len : Nat), len ≤ 7 →
    (mergeFieldGo l seen len).length + len ≤ 8 ∧
    (∀ s ∈ mergeFieldGo l seen len, s ∈ l ∧ ¬ strLower s ∈ seen) ∧
    (mergeFieldGo l seen len).Pairwise
      (fun x y => strLower x ≠ strLower y) := by
  intro l
  induction l with
  | nil =>
    intro seen len hlen
    refine ⟨by simp [mergeFieldGo]; omega, by simp [mergeFieldGo],
      by simp [mergeFieldGo]⟩
  | cons c rest ih =>
    intro seen len hlen
    simp only [mergeFieldGo]
    by_cases hseen : strLower c ∈ seen
    · rw [if_pos hseen]
      obtain ⟨h1, h2, h3⟩ := ih seen len hlen
      exact ⟨h1, fun s hs => ⟨List.mem_cons_of_mem _ (h2 s hs).1, (h2 s hs).2⟩,
        h3⟩
    · rw [if_neg hseen]
      by_cases hbreak : 8 ≤ len + 1
      · rw [if_pos hbreak]
        refine ⟨by simp; omega, ?_, by simp⟩
        intro s hs
        rcases List.mem_singleton.mp hs with rfl
        exact ⟨List.mem_cons_self _ _, hseen⟩
      · rw [if_neg hbreak]
        obtain ⟨ihlen, ihmem, ihpw⟩ := ih (strLower c :: seen) (len + 1)
          (by omega)
        refine ⟨by simp; omega, ?_, ?_⟩
        · intro s hs
          rcases List.mem_cons.mp hs with rfl | hs'
          · exact ⟨List.mem_cons_self _ _, hseen⟩
          · obtain ⟨h1, h2⟩ := ihmem s hs'
            exact ⟨List.mem_cons_of_mem _ h1,
              fun hmem => h2 (List.mem_cons_of_mem _ hmem)⟩
        · refine List.Pairwise.cons ?_ ihpw
          intro y hy
          obtain ⟨_, h2⟩ := ihmem y hy
          intro heq
          exact h2 (heq ▸ List.mem_cons_self _ _)

lemma mergeFieldGo_sublist : ∀ (l seen : List String) (len : Nat),
    (mergeFieldGo l seen len).Sublist l := by
  intro l
  induction l with
  | nil => intro seen len; simp [mergeFieldGo]
  | cons c rest ih =>
    intro seen len
    simp only [mergeFieldGo]
    by_cases hseen : strLower c ∈ seen
    · rw [if_pos hseen]
      exact (ih seen len).cons c
    · rw [if_neg hseen]
      by_cases hbreak : 8 ≤ len + 1
      · rw [if_pos hbreak]
        exact (List.nil_sublist rest).cons₂ c
      · rw [if_neg hbreak]
        exact (ih (strLower c :: seen) (len + 1)).cons₂ c

lemma mergeFieldGo_append : ∀ (xs ys seen : List String) (len : Nat),
    ∃ u v, mergeFieldGo (xs ++ ys) seen len = u ++ v ∧
      u.Sublist xs ∧ v.Sublist ys := by
  intro xs
  induction xs with
  | nil =>
    intro ys seen len
    exact ⟨[], mergeFieldGo ys seen len, rfl, List.nil_sublist [],
      mergeFieldGo_sublist ys seen len⟩
  | cons c rest ih =>
    intro ys seen len
    simp only [List.cons_append, mergeFieldGo]
    by_cases hseen : strLower c ∈ seen
    · rw [if_pos hseen]
      obtain ⟨u, v, heq, hu, hv⟩ := ih ys seen len
      exact ⟨u, v, heq, hu.cons c, hv⟩
    · rw [if_neg hseen]
      by_cases hbreak : 8 ≤ len + 1
      · rw [if_pos hbreak]
        exact ⟨[c], [], rfl, (List.nil_sublist rest).cons₂ c,
          List.nil_sublist ys⟩
      · rw [if_neg hbreak]
        obtain ⟨u, v, heq, hu, hv⟩ := ih ys (strLower c :: seen) (len + 1)
        exact ⟨c :: u, v,
          by simpa [List.cons_append] using congrArg (fun t => c :: t) heq,
          hu.cons₂ c, hv⟩

lemma mergeField_wfField (xs ys : List String)
    (hmem : ∀ s ∈ xs ++ ys, s ≠ "" ∧ s.length ≤ 180) :
    WfField (mergeFieldGo (xs ++ ys) [] 0) := by
  obtain ⟨h1, h2, h3⟩ := mergeFieldGo_wf (xs ++ ys) [] 0 (by omega)
  exact ⟨by omega, fun s hs => hmem s (h2 s hs).1, h3⟩

lemma mergeMemoryProfiles_get (a b : Option MemoryProfileIn)
    (k : MemoryFieldKey) :
    (mergeMemoryProfiles a b).get k =
      mergeFieldGo ((sanitizeMemoryProfile a).get k ++
        (sanitizeMemoryProfile b).get k) [] 0 := by
  cases k <;> rfl

lemma sanitizeMemoryProfile_get_shape (p : Option MemoryProfileIn)
    (k : MemoryFieldKey) :
    ∃ v, (sanitizeMemoryProfile p).get k = normalizeStringArray v := by
  cases p with
  | none => exact ⟨none, by cases k <;> rfl⟩
  | some v => cases k <;> exact ⟨_, rfl⟩

lemma rebalanceMemoryProfile_get_shape (classify : String → MemoryFieldKey)
    (p : Option MemoryProfileIn) (k : MemoryFieldKey) :
    ∃ l, (rebalanceMemoryProfile classify p).get k =
      normalizeStringArray (some l) := by
  cases k <;> exact ⟨_, rfl⟩

/-- C7: every field of `mergeMemoryProfiles`, `sanitizeMemoryProfile` and
`rebalanceMemoryProfile` (over arbitrary, arbitrarily-shaped inputs, and any
note classifier) is a list of at most 8 non-empty strings of at most 180
characters with no two items equal case-insensitively; and in each merged
field the surviving items of the primary profile precede those of the
secondary profile. -/
theorem C7_memory_profile_wellformed (a b p : Option MemoryProfileIn)
    (classify : String → MemoryFieldKey) :
    WfProfile (mergeMemoryProfiles a b) ∧
    WfProfile (sanitizeMemoryProfile p) ∧
    WfProfile (rebalanceMemoryProfile classify p) ∧
    (∀ k : MemoryFieldKey, ∃ u v,
      (mergeMemoryProfiles a b).get k = u ++ v ∧
      u.Sublist ((sanitizeMemoryProfile a).get k) ∧
      v.Sublist ((sanitizeMemoryProfile b).get k)) := by
  have hsan : ∀ (q : Option MemoryProfileIn) (k : MemoryFieldKey),
      WfField ((sanitizeMemoryProfile q).get k) := by
    intro q k
    obtain ⟨v, hv⟩ := sanitizeMemoryProfile_get_shape q k
    rw [hv]
    exact normalizeStringArray_wfField v
  refine ⟨?_, fun k => hsan p k, ?_, ?_⟩
  · intro k
    rw [mergeMemoryProfiles_get]
    apply mergeField_wfField
    intro s hs
    rcases List.mem_append.mp hs with hs' | hs'
    · exact (hsan a k).2.1 s hs'
    · exact (hsan b k).2.1 s hs'
  · intro k
    obtain ⟨l, hl⟩ := rebalanceMemoryProfile_get_shape classify p k
    rw [hl]
    exact normalizeStringArray_wfField (some l)
  · intro k
    rw [mergeMemoryProfiles_get]
    exact mergeFieldGo_append _ _ [] 0

/-- A request to the cron handler: the `test` query parameter (absent =
`none`) and the current UTC hour (`new Date().getUTCHours()`, 0-23). -/
structure CronReq where
  queryTest : Option String
  utcHours : Nat
deriving DecidableEq, Repr

/-- Observable side effects of the cron handler's main body. -/
inductive CronEffect where
  | modelCall
  | kvRead
  | push
  | kvRemove
deriving DecidableEq, Repr

/-- Response payload of the cron handler. -/
inductive CronBody where
  | skipped (reason : String)
  | success
  | failure (error : String)
deriving DecidableEq, Repr

/-- An HTTP response of the cron handler. -/
structure CronResponse where
  status : Nat
  body : CronBody
deriving DecidableEq, Repr

/-- The cron handler's gate logic (`src/unnamed` cron file, lines 11-27):
KST hour via `(UTC + 9) % 24`, the time gate, then the `Math.random() > 0.17`
skip (`randSkip` is that comparison's outcome); everything after the gates —
message generation, subscription reads, pushes — is the continuation `rest`
together with its effect trace. -/
def cronHandler (req : CronReq) (randSkip : Bool)
    (rest : Unit → CronResponse × List CronEffect) :
    CronResponse × List CronEffect :=
  let hourKST := (req.utcHours + 9) % 24
  let isTest := req.queryTest = some "true"
  if ¬isTest ∧ (hourKST < 9 ∨ 22 ≤ hourKST) then
    (⟨200, .skipped "Outside active hours (09:00 - 22:00)"⟩, [])
  else if ¬isTest ∧ randSkip = true then
    (⟨200, .skipped "Random skip"⟩, [])
  else rest ()

/-- C8: for every request whose `test` query parameter is not `'true'`, when
the KST hour `(UTC + 9) % 24` is below 9 or at least 22, the cron handler
returns HTTP 200 with the skipped payload and performs no effect at all — no
model call, no subscription read, no push — regardless of the randomness and
of whatever the main body would do. -/
theorem C8_cron_time_gate (req : CronReq) (randSkip : Bool)
    (rest : Unit → CronResponse × List CronEffect)
    (htest : req.queryTest ≠ some "true")
    (hhour : (req.utcHours + 9) % 24 < 9 ∨ 22 ≤ (req.utcHours + 9) % 24) :
    cronHandler req randSkip rest =
      (⟨200, .skipped "Outside active hours (09:00 - 22:00)"⟩, []) := by
  unfold cronHandler
  rw [if_pos ⟨htest, hhour⟩]

/-- Witness for C8: 14:00 UTC is 23:00 KST, outside the active window. -/
theorem C8_witness :
    cronHandler ⟨none, 14⟩ false
        (fun _ => (⟨500, .failure "boom"⟩, [.modelCall, .kvRead, .push])) =
      (⟨200, .skipped "Outside active hours (09:00 - 22:00)"⟩, []) :=
  C8_cron_time_gate ⟨none, 14⟩ false
    (fun _ => (⟨500, .failure "boom"⟩, [.modelCall, .kvRead, .push]))
    (by decide) (by decide)

/-- Witness for C4 (amended): three distinct alternatives for the source
`"zzz"`; the weak-result check passes and no item echoes the source. -/
theorem C4_witness :
    (normalizeNativeAlternatives [⟨some "One", none, none⟩,
      ⟨some "Two", none, none⟩, ⟨some "Three", none, none⟩]).length ≤ 3 ∧
    (∀ i ∈ normalizeNativeAlternatives [⟨some "One", none, none⟩,
        ⟨some "Two", none, none⟩, ⟨some "Three", none, none⟩],
      normalizeForComparison i.text ≠ normalizeForComparison "zzz") :=
  ⟨(C4_normalizeNativeAlternatives_amended [⟨some "One", none, none⟩,
      ⟨some "Two", none, none⟩, ⟨some "Three", none, none⟩] "zzz").2.1,
    (C4_normalizeNativeAlternatives_amended [⟨some "One", none, none⟩,
      ⟨some "Two", none, none⟩, ⟨some "Three", none, none⟩] "zzz").2.2
      (by decide)⟩
